import Mathlib

/-!
Verification of the PyEmChargeOnSolar charge-decision core.

The Python sources (`pyemchargeonsolar.py`, `pyemcos_shared.py`,
`pyemcos_emporia.py`) are shallowly embedded below: kilowatt readings
(Python floats) are modelled as rationals, Python `int()` as truncation
toward zero, Python `round(x, 2)` as exact decimal rounding half-to-even,
and the stateful decision method `update_charge_amp_by_power_data` as a
pure function from controller state to the new state paired with the list
of charger commands it issues.
-/

namespace PyEmCoS

/-- Python `int()` applied to a real-valued expression: truncation toward
zero (ceiling for negative arguments, floor otherwise). -/
def pyint (q : ℚ) : ℤ := if q < 0 then ⌈q⌉ else ⌊q⌋

/-- Round a rational to the nearest integer, ties to even — the rounding
Python's builtin `round` uses. -/
def roundHalfEven (q : ℚ) : ℤ :=
  if Int.fract q < 1/2 then ⌊q⌋
  else if 1/2 < Int.fract q then ⌊q⌋ + 1
  else if 2 ∣ ⌊q⌋ then ⌊q⌋ else ⌊q⌋ + 1

/-- Python `round(x, 2)`: round to two decimal places, ties to even. -/
def pyround2 (q : ℚ) : ℚ := (roundHalfEven (q * 100) : ℚ) / 100

/-- Python `min` over a list (`min(xs)`); the empty case is unreachable at
the call sites, which guard on the window being full. -/
def pyListMin : List ℚ → ℚ
  | [] => 0
  | x :: xs => xs.foldl min x

/-- Python `max` over a list (`max(xs)`). -/
def pyListMax : List ℚ → ℚ
  | [] => 0
  | x :: xs => xs.foldl max x

/-- The trailing slice `l[-count:]` for a positive `count`: the last
`count` entries (the whole list when `count` exceeds the length). -/
def lastWindow (l : List ℚ) (count : ℤ) : List ℚ :=
  l.drop (l.length - count.toNat)

/-- `PyEmChargeOnSolar.available_kw_sliding_average` (pyemchargeonsolar.py
lines 70-75): `sum(self.available_kw[-count:]) / min(count,
len(self.available_kw))` when `count > 0` and enough history exists,
`0` otherwise. -/
def available_kw_sliding_average (available_kw : List ℚ) (count : ℤ) : ℚ :=
  if 0 < count ∧ count ≤ (available_kw.length : ℤ) then
    (lastWindow available_kw count).sum / ((min count (available_kw.length : ℤ) : ℤ) : ℚ)
  else 0

/-- `PyEmChargeOnSolar.available_kw_sliding_minimum` (lines 78-83). -/
def available_kw_sliding_minimum (available_kw : List ℚ) (count : ℤ) : ℚ :=
  if 0 < count ∧ count ≤ (available_kw.length : ℤ) then
    pyListMin (lastWindow available_kw count)
  else 0

/-- `PyEmChargeOnSolar.available_kw_sliding_maximum` (lines 86-91). -/
def available_kw_sliding_maximum (available_kw : List ℚ) (count : ℤ) : ℚ :=
  if 0 < count ∧ count ≤ (available_kw.length : ℤ) then
    pyListMax (lastWindow available_kw count)
  else 0

/-- The configuration values the decision core consumes
(`pyemcos_shared.py`); each is read through Python `int(...)` at the use
sites, so they are modelled as integers. -/
structure Config where
  MIN_AMPS : ℤ
  MAX_AMPS : ℤ
  OFFSET_AMPS : ℤ
  SMOOTH : ℤ
  WAIT_START : ℤ
  WAIT_STOP : ℤ
deriving DecidableEq

/-- `pyemcos_shared.historical_count = max(int(WAIT_START), int(WAIT_STOP))`
(pyemcos_shared.py line 61): the cap on the sample history. -/
def historical_count (cfg : Config) : ℤ := max cfg.WAIT_START cfg.WAIT_STOP

/-- Python slice `l[-c:]` for an arbitrary integer `c` (as used by
`prune_available_kw` with `c = historical_count`): for `c > 0` the last
`c` entries; for `c = 0` the index is `-0 = 0`, so the whole list; for
`c < 0` the slice starts at the nonnegative index `-c`. -/
def pyTailSlice (l : List ℚ) (c : ℤ) : List ℚ :=
  if 0 < c then l.drop (l.length - c.toNat) else l.drop (-c).toNat

/-- `PyEmChargeOnSolar.prune_available_kw` (lines 64-67): truncate the
history to the last `historical_count` entries once it grows past the cap. -/
def prune_available_kw (cfg : Config) (available_kw : List ℚ) : List ℚ :=
  if historical_count cfg < (available_kw.length : ℤ) then
    pyTailSlice available_kw (historical_count cfg)
  else available_kw

/-- The history mutation performed by `update_power_available`
(lines 143-145): append the fresh sample, then prune. -/
def push_available_kw (cfg : Config) (available_kw : List ℚ) (sample : ℚ) : List ℚ :=
  prune_available_kw cfg (available_kw ++ [sample])

/-- The kw→amps conversion `int(kw * 1000 / 240) + int(OFFSET_AMPS)`
used for `amps`, `min_amps` and `max_amps` in
`update_charge_amp_by_power_data` (lines 153-154, 161-162). -/
def kw_to_amps (offset : ℤ) (kw : ℚ) : ℤ := pyint (kw * 1000 / 240) + offset

/-- `average_kw = round(self.available_kw_sliding_average(int(SMOOTH)), 2)`
(line 152). -/
def average_kw (cfg : Config) (available_kw : List ℚ) : ℚ :=
  pyround2 (available_kw_sliding_average available_kw cfg.SMOOTH)

/-- `amps = int(average_kw * 1000 / 240) + int(OFFSET_AMPS)` (lines 153-154). -/
def amps (cfg : Config) (available_kw : List ℚ) : ℤ :=
  kw_to_amps cfg.OFFSET_AMPS (average_kw cfg available_kw)

/-- `true_final_amps = max(min(amps, int(MAX_AMPS)), 0)` (line 155). -/
def true_final_amps (cfg : Config) (available_kw : List ℚ) : ℤ :=
  max (min (amps cfg available_kw) cfg.MAX_AMPS) 0

/-- `set_final_amps = max(min(amps, int(MAX_AMPS)), int(MIN_AMPS))` (line 156). -/
def set_final_amps (cfg : Config) (available_kw : List ℚ) : ℤ :=
  max (min (amps cfg available_kw) cfg.MAX_AMPS) cfg.MIN_AMPS

/-- `min_kw = round(self.available_kw_sliding_minimum(int(WAIT_START)), 2)`
(line 159). -/
def min_kw (cfg : Config) (available_kw : List ℚ) : ℚ :=
  pyround2 (available_kw_sliding_minimum available_kw cfg.WAIT_START)

/-- `max_kw = round(self.available_kw_sliding_maximum(int(WAIT_STOP)), 2)`
(line 160). -/
def max_kw (cfg : Config) (available_kw : List ℚ) : ℚ :=
  pyround2 (available_kw_sliding_maximum available_kw cfg.WAIT_STOP)

/-- `min_amps = int(min_kw * 1000 / 240) + int(OFFSET_AMPS)` (line 161). -/
def min_amps (cfg : Config) (available_kw : List ℚ) : ℤ :=
  kw_to_amps cfg.OFFSET_AMPS (min_kw cfg available_kw)

/-- `max_amps = int(max_kw * 1000 / 240) + int(OFFSET_AMPS)` (line 162). -/
def max_amps (cfg : Config) (available_kw : List ℚ) : ℤ :=
  kw_to_amps cfg.OFFSET_AMPS (max_kw cfg available_kw)

/-- `should_enable = min_amps >= int(MIN_AMPS)` (line 163). -/
def should_enable (cfg : Config) (available_kw : List ℚ) : Prop :=
  min_amps cfg available_kw ≥ cfg.MIN_AMPS

instance (cfg : Config) (l : List ℚ) : Decidable (should_enable cfg l) :=
  inferInstanceAs (Decidable (min_amps cfg l ≥ cfg.MIN_AMPS))

/-- `should_disable = max_amps < int(MIN_AMPS)` (line 164). -/
def should_disable (cfg : Config) (available_kw : List ℚ) : Prop :=
  max_amps cfg available_kw < cfg.MIN_AMPS

instance (cfg : Config) (l : List ℚ) : Decidable (should_disable cfg l) :=
  inferInstanceAs (Decidable (max_amps cfg l < cfg.MIN_AMPS))

/-- The charger commands the engine can issue through the Emporia client
(`pyemcos_emporia.py`): `set_charger_on`, `set_charging_rate` and the
committing `update_charger`. -/
inductive Command where
  | set_charger_on (value : Bool)
  | set_charging_rate (value : ℤ)
  | update_charger
deriving DecidableEq

/-- The mutable fields of `PyEmChargeOnSolar` that the decision method
reads or writes. `script_charger_on` is the controller intent (starts
`None`); `charger_on`, `charging_rate`, `charger_status` and the icon
fields are the externally observed charger state (each `None` when the
last fetch failed); `available_kw` is the sample history. -/
structure ChargerCtlState where
  script_charger_on : Option Bool
  charger_on : Option Bool
  charging_rate : Option ℤ
  available_kw : List ℚ
  charger_status : Option String
  charger_icon : Option String
  charger_icon_label : Option String
  charger_icon_detail_text : Option String
deriving DecidableEq

/-- Python truthiness of an optional boolean field: `None` and `False`
are falsy, `True` is truthy (`if not self.charger_on: ...`). -/
def truthy : Option Bool → Bool
  | none => false
  | some b => b

/-- The normalized charger state returned by
`PyEmCoS_Emporia.get_charger_state` on success (pyemcos_emporia.py
lines 75-86). -/
structure ChargerState where
  charger_status : String
  charger_on : Bool
  charging_rate : ℤ
  charger_icon : String
  charger_icon_label : String
  charger_icon_detail_text : String
deriving DecidableEq

/-- `PyEmChargeOnSolar.update_emporia_status` (lines 119-135): copy the
fetched charger state into the controller fields, or set them all to
`None` when the fetch failed (`charger_state is None`). -/
def update_emporia_status (charger_state : Option ChargerState)
    (st : ChargerCtlState) : ChargerCtlState :=
  match charger_state with
  | none =>
      { st with charger_status := none, charger_on := none, charging_rate := none,
                charger_icon := none, charger_icon_label := none,
                charger_icon_detail_text := none }
  | some cs =>
      { st with charger_status := some cs.charger_status,
                charger_on := some cs.charger_on,
                charging_rate := some cs.charging_rate,
                charger_icon := some cs.charger_icon,
                charger_icon_label := some cs.charger_icon_label,
                charger_icon_detail_text := some cs.charger_icon_detail_text }

/-- `PyEmChargeOnSolar.update_charge_amp_by_power_data` (lines 148-220) as
a pure transition: returns the new controller state (only
`script_charger_on` is ever written) together with the list of charger
commands issued, in call order. The branch structure mirrors the source:
the drift guard on line 189, then the five `if/elif` arms and the final
`else` on lines 191-218. -/
def update_charge_amp_by_power_data (cfg : Config) (st : ChargerCtlState) :
    ChargerCtlState × List Command :=
  if st.script_charger_on = none ∨ st.script_charger_on = st.charger_on then
    if truthy st.charger_on = false ∧
        (¬ should_enable cfg st.available_kw ∨
          true_final_amps cfg st.available_kw < cfg.MIN_AMPS) then
      ({ st with script_charger_on := some false }, [])
    else if truthy st.charger_on = false ∧ should_enable cfg st.available_kw ∧
        true_final_amps cfg st.available_kw ≥ cfg.MIN_AMPS then
      ({ st with script_charger_on := some true },
        [Command.set_charger_on true,
         Command.set_charging_rate (set_final_amps cfg st.available_kw),
         Command.update_charger])
    else if truthy st.charger_on = true ∧ should_disable cfg st.available_kw then
      ({ st with script_charger_on := some false },
        [Command.set_charger_on false,
         Command.set_charging_rate cfg.MIN_AMPS,
         Command.update_charger])
    else if truthy st.charger_on = true ∧
        st.charging_rate = some (set_final_amps cfg st.available_kw) then
      ({ st with script_charger_on := some true }, [])
    else if truthy st.charger_on = true then
      ({ st with script_charger_on := some true },
        [Command.set_charging_rate (set_final_amps cfg st.available_kw),
         Command.update_charger])
    else
      ({ st with script_charger_on := some false }, [])
  else
    (st, [])

/-- Observable outcome of one run of the `backoff`-wrapped call:
the value returned to the caller (`none` models Python's implicit
`return None` after exhausted retries), how many times the wrapped
function was invoked, and the sleep durations performed between
attempts, in order. -/
structure BackoffResult (α : Type) where
  result : Option α
  calls : ℕ
  delays : List ℕ
deriving DecidableEq

/-- The `while current_retry < retries` loop of the `backoff` decorator
(pyemcos_shared.py lines 64-79). The wrapped call is modelled by
`attempts`: `attempts i = none` means invocation number `i` raises,
`attempts i = some v` means it returns `v`. `i` is the next invocation
number, `d` the current delay, and `r = retries - current_retry` the
remaining loop iterations; sleeps are recorded rather than performed. -/
def backoffGo {α : Type} (attempts : ℕ → Option α) : ℕ → ℕ → ℕ → BackoffResult α
  | _, _, 0 => ⟨none, 0, []⟩
  | i, d, r + 1 =>
    match attempts i with
    | some v => ⟨some v, 1, []⟩
    | none =>
      if r = 0 then ⟨none, 1, []⟩
      else
        let rest := backoffGo attempts (i + 1) (2 * d) r
        ⟨rest.result, rest.calls + 1, d :: rest.delays⟩

/-- `pyemcos_shared.backoff(delay=5, retries=3)` applied to a function
whose successive invocations behave as `attempts`. -/
def backoff {α : Type} (delay retries : ℕ) (attempts : ℕ → Option α) : BackoffResult α :=
  backoffGo attempts 0 delay retries

/-! ### Arithmetic facts about the Python numeric primitives -/

lemma pyint_zero : pyint 0 = 0 := by simp [pyint]

lemma pyint_mono {a b : ℚ} (h : a ≤ b) : pyint a ≤ pyint b := by
  unfold pyint
  split_ifs with h1 h2 h3
  · exact Int.ceil_mono h
  · exact le_trans (Int.ceil_le.mpr (by exact_mod_cast h1.le))
      (Int.floor_nonneg.mpr (not_lt.mp h2))
  · exact absurd (h.trans_lt h3) h1
  · exact Int.floor_mono h

lemma floor_le_roundHalfEven (q : ℚ) : ⌊q⌋ ≤ roundHalfEven q := by
  unfold roundHalfEven
  split_ifs <;> omega

lemma roundHalfEven_le_floor_add_one (q : ℚ) : roundHalfEven q ≤ ⌊q⌋ + 1 := by
  unfold roundHalfEven
  split_ifs <;> omega

lemma roundHalfEven_mono {a b : ℚ} (h : a ≤ b) : roundHalfEven a ≤ roundHalfEven b := by
  rcases lt_or_eq_of_le (Int.floor_mono h) with hf | hf
  · calc roundHalfEven a ≤ ⌊a⌋ + 1 := roundHalfEven_le_floor_add_one a
      _ ≤ ⌊b⌋ := by omega
      _ ≤ roundHalfEven b := floor_le_roundHalfEven b
  · have hfr : Int.fract a ≤ Int.fract b := by
      unfold Int.fract
      rw [hf]
      exact sub_le_sub_right h _
    unfold roundHalfEven
    rw [hf]
    split_ifs <;> first | omega | linarith

lemma roundHalfEven_zero : roundHalfEven 0 = 0 := by
  unfold roundHalfEven
  rw [Int.fract_zero]
  norm_num

lemma pyround2_mono {a b : ℚ} (h : a ≤ b) : pyround2 a ≤ pyround2 b := by
  unfold pyround2
  have h100 : a * 100 ≤ b * 100 := by linarith
  have : (roundHalfEven (a * 100) : ℚ) ≤ (roundHalfEven (b * 100) : ℚ) := by
    exact_mod_cast roundHalfEven_mono h100
  linarith

lemma pyround2_zero : pyround2 0 = 0 := by
  unfold pyround2
  rw [zero_mul, roundHalfEven_zero]
  norm_num

lemma kw_to_amps_mono (off : ℤ) {a b : ℚ} (h : a ≤ b) :
    kw_to_amps off a ≤ kw_to_amps off b := by
  unfold kw_to_amps
  have hq : a * 1000 / 240 ≤ b * 1000 / 240 := by
    have h1000 : a * 1000 ≤ b * 1000 := by linarith
    linarith
  exact add_le_add_right (pyint_mono hq) off

lemma kw_to_amps_zero (off : ℤ) : kw_to_amps off 0 = off := by
  unfold kw_to_amps
  norm_num [pyint]

/-! ### Python list `min`/`max` and trailing-window facts -/

lemma foldl_min_mem (xs : List ℚ) : ∀ x : ℚ, xs.foldl min x ∈ x :: xs := by
  induction xs with
  | nil => intro x; simp
  | cons y ys ih =>
      intro x
      rw [List.foldl_cons]
      rcases List.mem_cons.mp (ih (min x y)) with h1 | h1
      · rw [h1]
        rcases min_choice x y with hc | hc <;> rw [hc] <;> simp
      · simp [h1]

lemma foldl_min_le (xs : List ℚ) : ∀ x a : ℚ, a ∈ x :: xs → xs.foldl min x ≤ a := by
  induction xs with
  | nil =>
      intro x a ha
      rw [List.mem_singleton] at ha
      simp [ha]
  | cons y ys ih =>
      intro x a ha
      rw [List.foldl_cons]
      rcases List.mem_cons.mp ha with h1 | h1
      · subst h1
        exact le_trans (ih (min a y) _ (List.mem_cons_self _ _)) (min_le_left a y)
      · rcases List.mem_cons.mp h1 with h2 | h2
        · subst h2
          exact le_trans (ih (min x a) _ (List.mem_cons_self _ _)) (min_le_right x a)
        · exact ih (min x y) a (List.mem_cons_of_mem _ h2)

lemma foldl_max_mem (xs : List ℚ) : ∀ x : ℚ, xs.foldl max x ∈ x :: xs := by
  induction xs with
  | nil => intro x; simp
  | cons y ys ih =>
      intro x
      rw [List.foldl_cons]
      rcases List.mem_cons.mp (ih (max x y)) with h1 | h1
      · rw [h1]
        rcases max_choice x y with hc | hc <;> rw [hc] <;> simp
      · simp [h1]

lemma le_foldl_max (xs : List ℚ) : ∀ x a : ℚ, a ∈ x :: xs → a ≤ xs.foldl max x := by
  induction xs with
  | nil =>
      intro x a ha
      rw [List.mem_singleton] at ha
      simp [ha]
  | cons y ys ih =>
      intro x a ha
      rw [List.foldl_cons]
      rcases List.mem_cons.mp ha with h1 | h1
      · subst h1
        exact le_trans (le_max_left a y) (ih (max a y) _ (List.mem_cons_self _ _))
      · rcases List.mem_cons.mp h1 with h2 | h2
        · subst h2
          exact le_trans (le_max_right x a) (ih (max x a) _ (List.mem_cons_self _ _))
        · exact ih (max x y) a (List.mem_cons_of_mem _ h2)

lemma pyListMin_mem {l : List ℚ} (h : l ≠ []) : pyListMin l ∈ l := by
  cases l with
  | nil => exact absurd rfl h
  | cons x xs => exact foldl_min_mem xs x

lemma pyListMin_le {l : List ℚ} {a : ℚ} (ha : a ∈ l) : pyListMin l ≤ a := by
  cases l with
  | nil => simp at ha
  | cons x xs => exact foldl_min_le xs x a ha

lemma pyListMax_mem {l : List ℚ} (h : l ≠ []) : pyListMax l ∈ l := by
  cases l with
  | nil => exact absurd rfl h
  | cons x xs => exact foldl_max_mem xs x

lemma le_pyListMax {l : List ℚ} {a : ℚ} (ha : a ∈ l) : a ≤ pyListMax l := by
  cases l with
  | nil => simp at ha
  | cons x xs => exact le_foldl_max xs x a ha

lemma lastWindow_length {l : List ℚ} {n : ℤ} (h1 : 0 < n) (h2 : n ≤ (l.length : ℤ)) :
    (lastWindow l n).length = n.toNat := by
  unfold lastWindow
  rw [List.length_drop]
  omega

lemma lastWindow_ne_nil {l : List ℚ} {n : ℤ} (h1 : 0 < n) (h2 : n ≤ (l.length : ℤ)) :
    lastWindow l n ≠ [] := by
  have := lastWindow_length h1 h2
  intro hnil
  rw [hnil] at this
  simp at this
  omega

lemma sliding_minimum_full {l : List ℚ} {n : ℤ} (h1 : 0 < n) (h2 : n ≤ (l.length : ℤ)) :
    available_kw_sliding_minimum l n ∈ lastWindow l n ∧
    ∀ a ∈ lastWindow l n, available_kw_sliding_minimum l n ≤ a := by
  unfold available_kw_sliding_minimum
  rw [if_pos ⟨h1, h2⟩]
  exact ⟨pyListMin_mem (lastWindow_ne_nil h1 h2), fun a ha => pyListMin_le ha⟩

lemma sliding_maximum_full {l : List ℚ} {n : ℤ} (h1 : 0 < n) (h2 : n ≤ (l.length : ℤ)) :
    available_kw_sliding_maximum l n ∈ lastWindow l n ∧
    ∀ a ∈ lastWindow l n, a ≤ available_kw_sliding_maximum l n := by
  unfold available_kw_sliding_maximum
  rw [if_pos ⟨h1, h2⟩]
  exact ⟨pyListMax_mem (lastWindow_ne_nil h1 h2), fun a ha => le_pyListMax ha⟩

lemma sliding_minimum_degraded {l : List ℚ} {n : ℤ}
    (h : n ≤ 0 ∨ (l.length : ℤ) < n) : available_kw_sliding_minimum l n = 0 := by
  unfold available_kw_sliding_minimum
  rw [if_neg]
  rintro ⟨h1, h2⟩
  rcases h with h3 | h3 <;> omega

lemma sliding_maximum_degraded {l : List ℚ} {n : ℤ}
    (h : n ≤ 0 ∨ (l.length : ℤ) < n) : available_kw_sliding_maximum l n = 0 := by
  unfold available_kw_sliding_maximum
  rw [if_neg]
  rintro ⟨h1, h2⟩
  rcases h with h3 | h3 <;> omega

lemma sliding_average_degraded {l : List ℚ} {n : ℤ}
    (h : n ≤ 0 ∨ (l.length : ℤ) < n) : available_kw_sliding_average l n = 0 := by
  unfold available_kw_sliding_average
  rw [if_neg]
  rintro ⟨h1, h2⟩
  rcases h with h3 | h3 <;> omega

/-! ### Decision-branch helper lemmas -/

lemma step_drift {cfg : Config} {st : ChargerCtlState}
    (h1 : st.script_charger_on ≠ none)
    (h2 : st.script_charger_on ≠ st.charger_on) :
    update_charge_amp_by_power_data cfg st = (st, []) := by
  unfold update_charge_amp_by_power_data
  rw [if_neg]
  rintro (h | h)
  · exact h1 h
  · exact h2 h

lemma step_enable {cfg : Config} {st : ChargerCtlState}
    (hoff : truthy st.charger_on = false)
    (hdrift : st.script_charger_on = none ∨ st.script_charger_on = st.charger_on)
    (hse : should_enable cfg st.available_kw)
    (htfa : cfg.MIN_AMPS ≤ true_final_amps cfg st.available_kw) :
    update_charge_amp_by_power_data cfg st =
      ({ st with script_charger_on := some true },
       [Command.set_charger_on true,
        Command.set_charging_rate (set_final_amps cfg st.available_kw),
        Command.update_charger]) := by
  unfold update_charge_amp_by_power_data
  rw [if_pos hdrift,
      if_neg (fun hc => hc.2.elim (fun h2 => h2 hse) (fun h2 => absurd h2 (not_lt.mpr htfa))),
      if_pos ⟨hoff, hse, htfa⟩]

lemma step_on_no_change {cfg : Config} {st : ChargerCtlState}
    (hon : st.charger_on = some true)
    (hdrift : st.script_charger_on = none ∨ st.script_charger_on = st.charger_on)
    (hrate : st.charging_rate = some (set_final_amps cfg st.available_kw))
    (hnd : ¬ should_disable cfg st.available_kw) :
    update_charge_amp_by_power_data cfg st =
      ({ st with script_charger_on := some true }, []) := by
  have ht : truthy st.charger_on = true := by rw [hon]; rfl
  unfold update_charge_amp_by_power_data
  rw [if_pos hdrift,
      if_neg (fun hc => by simp [ht] at hc),
      if_neg (fun hc => by simp [ht] at hc),
      if_neg (fun hc => hnd hc.2),
      if_pos ⟨ht, hrate⟩]

lemma step_disable_inv {cfg : Config} {st : ChargerCtlState}
    (h : Command.set_charger_on false ∈ (update_charge_amp_by_power_data cfg st).2) :
    truthy st.charger_on = true ∧ should_disable cfg st.available_kw := by
  unfold update_charge_amp_by_power_data at h
  split_ifs at h with h1 h2 h3 h4 h5 h6 <;> simp_all

lemma step_enable_inv {cfg : Config} {st : ChargerCtlState}
    (h : Command.set_charger_on true ∈ (update_charge_amp_by_power_data cfg st).2) :
    truthy st.charger_on = false ∧ should_enable cfg st.available_kw ∧
      cfg.MIN_AMPS ≤ true_final_amps cfg st.available_kw := by
  unfold update_charge_amp_by_power_data at h
  split_ifs at h with h1 h2 h3 h4 h5 h6 <;> simp_all

lemma step_rate_inv {cfg : Config} {st : ChargerCtlState} {a : ℤ}
    (h : Command.set_charging_rate a ∈ (update_charge_amp_by_power_data cfg st).2)
    (hna : Command.set_charger_on false ∉ (update_charge_amp_by_power_data cfg st).2) :
    a = set_final_amps cfg st.available_kw := by
  unfold update_charge_amp_by_power_data at h hna
  split_ifs at h with h1 h2 h3 h4 h5 h6 <;> simp_all

lemma step_off_low_no_cmd {cfg : Config} {st : ChargerCtlState}
    (hoff : truthy st.charger_on = false)
    (htfa : true_final_amps cfg st.available_kw < cfg.MIN_AMPS) :
    (update_charge_amp_by_power_data cfg st).2 = [] := by
  unfold update_charge_amp_by_power_data
  split_ifs with h1 h2 h3 h4 h5 h6 <;> simp_all

/-! ### Bounded-history fold lemma -/

lemma foldl_push_drop (cfg : Config) (hcap : 1 ≤ historical_count cfg)
    (samples : List ℚ) :
    samples.foldl (push_available_kw cfg) [] =
      samples.drop (samples.length - (historical_count cfg).toNat) := by
  induction samples using List.reverseRecOn with
  | nil => simp
  | append_singleton s x ih =>
      rw [List.foldl_append, List.foldl_cons, List.foldl_nil, ih]
      by_cases hlen : s.length < (historical_count cfg).toNat
      · have h0 : s.length - (historical_count cfg).toNat = 0 := by omega
        have h0' : (s ++ [x]).length - (historical_count cfg).toNat = 0 := by
          simp only [List.length_append, List.length_singleton]
          omega
        rw [h0, List.drop_zero, h0', List.drop_zero]
        unfold push_available_kw prune_available_kw
        rw [if_neg (by simp only [List.length_append, List.length_singleton]; push_cast; omega)]
      · push_neg at hlen
        have htlen : (s.drop (s.length - (historical_count cfg).toNat)).length
            = (historical_count cfg).toNat := by
          rw [List.length_drop]
          omega
        unfold push_available_kw prune_available_kw pyTailSlice
        rw [if_pos (by
              simp only [List.length_append, List.length_singleton, htlen]
              push_cast
              omega),
            if_pos (by omega)]
        have hlen2 : (s.drop (s.length - (historical_count cfg).toNat) ++ [x]).length
            - (historical_count cfg).toNat = 1 := by
          simp only [List.length_append, List.length_singleton, htlen]
          omega
        rw [hlen2,
            List.drop_append_of_le_length (by rw [htlen]; omega),
            List.drop_drop,
            List.drop_append_of_le_length (by
              simp only [List.length_append, List.length_singleton]; omega)]
        have hidx : s.length - (historical_count cfg).toNat + 1
            = (s ++ [x]).length - (historical_count cfg).toNat := by
          simp only [List.length_append, List.length_singleton]
          omega
        rw [hidx]

/-! ### Backoff loop invariants -/

lemma backoffGo_spec {α : Type} (attempts : ℕ → Option α) :
    ∀ r i d : ℕ,
      (backoffGo attempts i d r).calls ≤ r ∧
      (backoffGo attempts i d r).delays =
        (List.range (backoffGo attempts i d r).delays.length).map (fun k => d * 2 ^ k) ∧
      (∀ v, (backoffGo attempts i d r).result = some v →
        0 < (backoffGo attempts i d r).calls ∧
        attempts (i + ((backoffGo attempts i d r).calls - 1)) = some v) ∧
      ((∀ k, attempts (i + k) = none) →
        (backoffGo attempts i d r).result = none ∧
        (backoffGo attempts i d r).calls = r) ∧
      (∀ k v, k < r → (∀ j, j < k → attempts (i + j) = none) →
        attempts (i + k) = some v →
        (backoffGo attempts i d r).result = some v ∧
        (backoffGo attempts i d r).calls = k + 1) := by
  intro r
  induction r with
  | zero =>
      intro i d
      simp [backoffGo]
  | succ r ih =>
      intro i d
      cases hai : attempts i with
      | some v =>
          refine ⟨?_, ?_, ?_, ?_, ?_⟩ <;> simp only [backoffGo, hai]
          · omega
          · simp
          · intro w hw
            simp only [Option.some.injEq] at hw
            subst hw
            simpa using hai
          · intro hall
            have h0 := hall 0
            rw [Nat.add_zero] at h0
            rw [hai] at h0
            cases h0
          · intro k w hk hprev hsucc
            cases k with
            | zero =>
                rw [Nat.add_zero] at hsucc
                rw [hai] at hsucc
                exact ⟨hsucc, rfl⟩
            | succ kp =>
                have h0 := hprev 0 (Nat.succ_pos kp)
                rw [Nat.add_zero] at h0
                rw [hai] at h0
                cases h0
      | none =>
          by_cases hr : r = 0
          · subst hr
            refine ⟨?_, ?_, ?_, ?_, ?_⟩ <;> simp only [backoffGo, hai]
            · simp
            · simp
            · intro w hw
              simp at hw
            · intro hall
              simp
            · intro k w hk hprev hsucc
              have hk0 : k = 0 := by omega
              subst hk0
              rw [Nat.add_zero] at hsucc
              rw [hai] at hsucc
              cases hsucc
          · obtain ⟨ih1, ih2, ih3, ih4, ih5⟩ := ih (i + 1) (2 * d)
            have hres : (backoffGo attempts i d (r + 1)).result
                = (backoffGo attempts (i + 1) (2 * d) r).result := by
              simp [backoffGo, hai, hr]
            have hcalls : (backoffGo attempts i d (r + 1)).calls
                = (backoffGo attempts (i + 1) (2 * d) r).calls + 1 := by
              simp [backoffGo, hai, hr]
            have hdelays : (backoffGo attempts i d (r + 1)).delays
                = d :: (backoffGo attempts (i + 1) (2 * d) r).delays := by
              simp [backoffGo, hai, hr]
            refine ⟨by rw [hcalls]; omega, ?_, ?_, ?_, ?_⟩
            · rw [hdelays]
              have hfun : ((fun k => d * 2 ^ k) ∘ Nat.succ) = (fun k => 2 * d * 2 ^ k) := by
                funext k
                simp only [Function.comp_apply]
                rw [pow_succ]
                ring
              calc d :: (backoffGo attempts (i + 1) (2 * d) r).delays
                  = d :: (List.range (backoffGo attempts (i + 1) (2 * d) r).delays.length).map
                      (fun k => 2 * d * 2 ^ k) := by rw [← ih2]
                _ = (List.range ((d :: (backoffGo attempts (i + 1) (2 * d) r).delays).length)).map
                      (fun k => d * 2 ^ k) := by
                    rw [List.length_cons, List.range_succ_eq_map, List.map_cons, List.map_map]
                    rw [hfun]
                    simp
            · intro v hv
              rw [hres] at hv
              obtain ⟨hpos, hat⟩ := ih3 v hv
              refine ⟨by rw [hcalls]; omega, ?_⟩
              rw [hcalls]
              have hidx : i + ((backoffGo attempts (i + 1) (2 * d) r).calls + 1 - 1)
                  = i + 1 + ((backoffGo attempts (i + 1) (2 * d) r).calls - 1) := by
                omega
              rw [hidx]
              exact hat
            · intro hall
              have hall' : ∀ k, attempts (i + 1 + k) = none := by
                intro k
                have hk := hall (k + 1)
                rwa [show i + (k + 1) = i + 1 + k by omega] at hk
              obtain ⟨hres', hcalls'⟩ := ih4 hall'
              refine ⟨by rw [hres]; exact hres', by rw [hcalls, hcalls']⟩
            · intro k w hk hprev hsucc
              cases k with
              | zero =>
                  rw [Nat.add_zero] at hsucc
                  rw [hai] at hsucc
                  cases hsucc
              | succ kp =>
                  have hprev' : ∀ j, j < kp → attempts (i + 1 + j) = none := by
                    intro j hj
                    have hjj := hprev (j + 1) (by omega)
                    rwa [show i + (j + 1) = i + 1 + j by omega] at hjj
                  have hsucc' : attempts (i + 1 + kp) = some w := by
                    rwa [show i + (kp + 1) = i + 1 + kp by omega] at hsucc
                  obtain ⟨hr1, hc1⟩ := ih5 kp w (by omega) hprev' hsucc'
                  refine ⟨by rw [hres]; exact hr1, by rw [hcalls, hc1]⟩

/-! ### Claim theorems -/

/-- C1 (Drift safety): whenever the controller intent `script_charger_on`
is set and differs from the observed `charger_on` flag, the decision cycle
issues no command and returns the state — in particular the intent —
unchanged, for all configuration values, power signals and history
contents. -/
theorem drift_safety (cfg : Config) (st : ChargerCtlState) (b : Bool)
    (hset : st.script_charger_on = some b)
    (hdiff : st.charger_on ≠ some b) :
    update_charge_amp_by_power_data cfg st = (st, []) :=
  step_drift (by rw [hset]; simp) (by rw [hset]; exact fun h => hdiff h.symm)

/-- Witness for C1 at a concrete drifted state. -/
theorem drift_safety_witness :
    update_charge_amp_by_power_data ⟨6, 48, 0, 5, 6, 3⟩
        ⟨some true, some false, some 10, [2], none, none, none, none⟩
      = (⟨some true, some false, some 10, [2], none, none, none, none⟩, []) :=
  drift_safety ⟨6, 48, 0, 5, 6, 3⟩
    ⟨some true, some false, some 10, [2], none, none, none, none⟩ true rfl (by decide)

/-- C2 counterexample: with `WAIT_STOP = 3` but only one (low) sample of
history, the charger observed on with matching intent, the engine issues
the disable command — so a shortfall sustained for fewer than `WAIT_STOP`
cycles does trigger a disable, contrary to the claim. -/
theorem disable_debounce_counterexample :
    (⟨6, 48, 0, 5, 6, 3⟩ : Config).WAIT_STOP = 3 ∧
    (⟨some true, some true, some 10, [1/10], none, none, none, none⟩ :
        ChargerCtlState).available_kw.length = 1 ∧
    (update_charge_amp_by_power_data ⟨6, 48, 0, 5, 6, 3⟩
        ⟨some true, some true, some 10, [1/10], none, none, none, none⟩).2 =
      [Command.set_charger_on false, Command.set_charging_rate 6,
       Command.update_charger] := by
  refine ⟨rfl, rfl, ?_⟩
  with_unfolding_all decide

/-- C2 (amended): a disable command is issued only when `should_disable`
holds, i.e. only when the `WAIT_STOP`-window maximum statistic maps to
amps below `MIN_AMPS`. When the history holds a full window
(`WAIT_STOP ≥ 1` and at least `WAIT_STOP` samples), this means every one
of the last `WAIT_STOP` samples maps to amps below `MIN_AMPS`, so a
shortfall sustained for fewer than `WAIT_STOP` cycles never triggers a
disable; but with fewer than `WAIT_STOP` samples (or `WAIT_STOP ≤ 0`) the
statistic degrades to `0` and the disable fires whenever
`OFFSET_AMPS < MIN_AMPS`. -/
theorem disable_debounce_amended (cfg : Config) (st : ChargerCtlState)
    (h : Command.set_charger_on false ∈ (update_charge_amp_by_power_data cfg st).2) :
    should_disable cfg st.available_kw ∧
    (0 < cfg.WAIT_STOP → cfg.WAIT_STOP ≤ (st.available_kw.length : ℤ) →
      ∀ s ∈ lastWindow st.available_kw cfg.WAIT_STOP,
        kw_to_amps cfg.OFFSET_AMPS (pyround2 s) < cfg.MIN_AMPS) ∧
    ((cfg.WAIT_STOP ≤ 0 ∨ (st.available_kw.length : ℤ) < cfg.WAIT_STOP) →
      cfg.OFFSET_AMPS < cfg.MIN_AMPS) := by
  have hsd : should_disable cfg st.available_kw := (step_disable_inv h).2
  refine ⟨hsd, ?_, ?_⟩
  · intro h1 h2 s hs
    have hmax := sliding_maximum_full h1 h2
    have hle : s ≤ available_kw_sliding_maximum st.available_kw cfg.WAIT_STOP :=
      hmax.2 s hs
    have hmono := kw_to_amps_mono cfg.OFFSET_AMPS (pyround2_mono hle)
    unfold should_disable max_amps max_kw at hsd
    exact lt_of_le_of_lt hmono hsd
  · intro hdeg
    have hz : available_kw_sliding_maximum st.available_kw cfg.WAIT_STOP = 0 :=
      sliding_maximum_degraded hdeg
    unfold should_disable max_amps max_kw at hsd
    rw [hz, pyround2_zero, kw_to_amps_zero] at hsd
    exact hsd

/-- Witness for the amended C2 with a full two-sample window. -/
theorem disable_debounce_amended_witness :
    Command.set_charger_on false ∈ (update_charge_amp_by_power_data ⟨6, 48, 0, 1, 6, 2⟩
      ⟨some true, some true, some 6, [1/10, 1/5], none, none, none, none⟩).2 ∧
    kw_to_amps 0 (pyround2 (1/5)) < 6 :=
  ⟨by with_unfolding_all decide,
   (disable_debounce_amended ⟨6, 48, 0, 1, 6, 2⟩
      ⟨some true, some true, some 6, [1/10, 1/5], none, none, none, none⟩
      (by with_unfolding_all decide)).2.1 (by decide)
      (by with_unfolding_all decide) (1/5) (by with_unfolding_all decide)⟩

/-- C3 counterexample: with `OFFSET_AMPS = 10 ≥ MIN_AMPS = 6` and a single
(zero) sample — fewer than `WAIT_START = 6` samples of history — the
engine issues an enable command with the charger observed off: the
degraded-to-zero window statistics plus the offset clear the threshold,
contradicting the claim for all configuration values. -/
theorem enable_hysteresis_counterexample :
    (⟨6, 48, 10, 5, 6, 3⟩ : Config).WAIT_START = 6 ∧
    (⟨none, some false, none, [0], none, none, none, none⟩ :
        ChargerCtlState).available_kw.length = 1 ∧
    (update_charge_amp_by_power_data ⟨6, 48, 10, 5, 6, 3⟩
        ⟨none, some false, none, [0], none, none, none, none⟩).2 =
      [Command.set_charger_on true, Command.set_charging_rate 10,
       Command.update_charger] := by
  refine ⟨rfl, rfl, ?_⟩
  with_unfolding_all decide

/-- C3 (amended): an enable command is issued only with the charger
observed off (falsy flag), `should_enable` true and
`true_final_amps ≥ MIN_AMPS`. When the history holds a full window
(`WAIT_START ≥ 1` and at least `WAIT_START` samples) this means every one
of the last `WAIT_START` samples maps to amps at or above `MIN_AMPS` — in
particular a single high sample amid low ones cannot enable; but with
fewer than `WAIT_START` samples (or `WAIT_START ≤ 0`) the statistic
degrades to `0` and the enable can fire whenever
`OFFSET_AMPS ≥ MIN_AMPS`. -/
theorem enable_hysteresis_amended (cfg : Config) (st : ChargerCtlState)
    (h : Command.set_charger_on true ∈ (update_charge_amp_by_power_data cfg st).2) :
    truthy st.charger_on = false ∧
    should_enable cfg st.available_kw ∧
    cfg.MIN_AMPS ≤ true_final_amps cfg st.available_kw ∧
    (0 < cfg.WAIT_START → cfg.WAIT_START ≤ (st.available_kw.length : ℤ) →
      ∀ s ∈ lastWindow st.available_kw cfg.WAIT_START,
        cfg.MIN_AMPS ≤ kw_to_amps cfg.OFFSET_AMPS (pyround2 s)) ∧
    ((cfg.WAIT_START ≤ 0 ∨ (st.available_kw.length : ℤ) < cfg.WAIT_START) →
      cfg.MIN_AMPS ≤ cfg.OFFSET_AMPS) := by
  obtain ⟨hoff, hse, htfa⟩ := step_enable_inv h
  refine ⟨hoff, hse, htfa, ?_, ?_⟩
  · intro h1 h2 s hs
    have hmin := sliding_minimum_full h1 h2
    have hle : available_kw_sliding_minimum st.available_kw cfg.WAIT_START ≤ s :=
      hmin.2 s hs
    have hmono := kw_to_amps_mono cfg.OFFSET_AMPS (pyround2_mono hle)
    unfold should_enable min_amps min_kw at hse
    exact le_trans hse hmono
  · intro hdeg
    have hz : available_kw_sliding_minimum st.available_kw cfg.WAIT_START = 0 :=
      sliding_minimum_degraded hdeg
    unfold should_enable min_amps min_kw at hse
    rw [hz, pyround2_zero, kw_to_amps_zero] at hse
    exact hse

/-- Witness for the amended C3 with a full two-sample window. -/
theorem enable_hysteresis_amended_witness :
    Command.set_charger_on true ∈ (update_charge_amp_by_power_data ⟨6, 48, 0, 2, 2, 3⟩
      ⟨none, some false, none, [3/2, 3/2], none, none, none, none⟩).2 ∧
    (6 : ℤ) ≤ kw_to_amps 0 (pyround2 (3/2)) :=
  ⟨by with_unfolding_all decide,
   (enable_hysteresis_amended ⟨6, 48, 0, 2, 2, 3⟩
      ⟨none, some false, none, [3/2, 3/2], none, none, none, none⟩
      (by with_unfolding_all decide)).2.2.2.1 (by decide)
      (by with_unfolding_all decide) (3/2) (by with_unfolding_all decide)⟩

/-- C4 (Clamping): assuming `MIN_AMPS ≤ MAX_AMPS`, every rate commanded
while enabling or re-rating (i.e. any `set_charging_rate` issued in a
cycle that does not turn the charger off) equals `set_final_amps` and lies
in `[MIN_AMPS, MAX_AMPS]`; and with the charger observed off the engine
refuses to act whenever the zero-floored `true_final_amps` is below
`MIN_AMPS`, even though `set_final_amps` would be a valid rate. -/
theorem clamping_ok (cfg : Config) (st : ChargerCtlState)
    (hmm : cfg.MIN_AMPS ≤ cfg.MAX_AMPS) :
    (∀ a : ℤ, Command.set_charging_rate a ∈ (update_charge_amp_by_power_data cfg st).2 →
      Command.set_charger_on false ∉ (update_charge_amp_by_power_data cfg st).2 →
      a = set_final_amps cfg st.available_kw ∧ cfg.MIN_AMPS ≤ a ∧ a ≤ cfg.MAX_AMPS) ∧
    (truthy st.charger_on = false → true_final_amps cfg st.available_kw < cfg.MIN_AMPS →
      (update_charge_amp_by_power_data cfg st).2 = []) := by
  constructor
  · intro a hmem hnot
    have ha := step_rate_inv hmem hnot
    subst ha
    refine ⟨rfl, le_max_right _ _, ?_⟩
    unfold set_final_amps
    exact max_le (min_le_right _ _) hmm
  · intro hoff htfa
    exact step_off_low_no_cmd hoff htfa

/-- Witness for C4: a re-rate cycle commands exactly the clamped
`set_final_amps`, and an off charger with sub-minimum true amps gets no
command. -/
theorem clamping_ok_witness :
    ((10 : ℤ) = set_final_amps ⟨6, 48, 0, 1, 6, 1⟩ [5/2] ∧ (6 : ℤ) ≤ 10 ∧ (10 : ℤ) ≤ 48) ∧
    (update_charge_amp_by_power_data ⟨6, 48, 0, 1, 6, 1⟩
        ⟨none, some false, none, [0], none, none, none, none⟩).2 = [] :=
  ⟨(clamping_ok ⟨6, 48, 0, 1, 6, 1⟩
      ⟨some true, some true, some 8, [5/2], none, none, none, none⟩ (by decide)).1 10
      (by with_unfolding_all decide) (by with_unfolding_all decide),
   (clamping_ok ⟨6, 48, 0, 1, 6, 1⟩
      ⟨none, some false, none, [0], none, none, none, none⟩ (by decide)).2
      (by decide) (by with_unfolding_all decide)⟩

/-- C5 (Sliding statistics): all three sliding statistics are pure
functions of the history list; each returns `0` whenever `n ≤ 0` or the
history holds fewer than `n` samples, and otherwise the average returns
the exact arithmetic mean of the last `n` entries (which number exactly
`n`), and the minimum/maximum return an element of those entries that
bounds them below/above respectively. -/
theorem sliding_stats_ok (l : List ℚ) (n : ℤ) :
    ((n ≤ 0 ∨ (l.length : ℤ) < n) →
      available_kw_sliding_average l n = 0 ∧
      available_kw_sliding_minimum l n = 0 ∧
      available_kw_sliding_maximum l n = 0) ∧
    (0 < n → n ≤ (l.length : ℤ) →
      (lastWindow l n).length = n.toNat ∧
      available_kw_sliding_average l n = (lastWindow l n).sum / (n : ℚ) ∧
      available_kw_sliding_minimum l n ∈ lastWindow l n ∧
      (∀ a ∈ lastWindow l n, available_kw_sliding_minimum l n ≤ a) ∧
      available_kw_sliding_maximum l n ∈ lastWindow l n ∧
      (∀ a ∈ lastWindow l n, a ≤ available_kw_sliding_maximum l n)) := by
  constructor
  · intro h
    exact ⟨sliding_average_degraded h, sliding_minimum_degraded h,
      sliding_maximum_degraded h⟩
  · intro h1 h2
    obtain ⟨hmm, hmb⟩ := sliding_minimum_full h1 h2
    obtain ⟨hxm, hxb⟩ := sliding_maximum_full h1 h2
    refine ⟨lastWindow_length h1 h2, ?_, hmm, hmb, hxm, hxb⟩
    unfold available_kw_sliding_average
    rw [if_pos ⟨h1, h2⟩, min_eq_left h2]

/-- Witness for C5: the mean of the last two of three samples, and the
degraded zero for `n = 0`. -/
theorem sliding_stats_ok_witness :
    available_kw_sliding_average [1, 2, 3] 2 = (lastWindow [1, 2, 3] 2).sum / (2 : ℚ) ∧
    available_kw_sliding_minimum [1, 2, 3] 0 = 0 :=
  ⟨(((sliding_stats_ok [1, 2, 3] 2).2 (by decide) (by with_unfolding_all decide)).2).1,
   ((sliding_stats_ok [1, 2, 3] 0).1 (by decide)).2.1⟩

/-- C6 (History cap invariant): starting from the empty history, pushing
any sequence of samples (append followed by prune, with a positive cap)
leaves the history at no more than `max(WAIT_START, WAIT_STOP)` entries
and equal to exactly the most recent samples in push order; since the
sequence is arbitrary, the same holds after every intermediate mutation
(each prefix of the sequence). -/
theorem history_cap_ok (cfg : Config) (samples : List ℚ)
    (hcap : 1 ≤ historical_count cfg) :
    ((samples.foldl (push_available_kw cfg) []).length : ℤ) ≤ historical_count cfg ∧
    samples.foldl (push_available_kw cfg) [] =
      samples.drop (samples.length - (historical_count cfg).toNat) := by
  have h := foldl_push_drop cfg hcap samples
  refine ⟨?_, h⟩
  rw [h, List.length_drop]
  omega

/-- Witness for C6: pushing five samples through a cap of
`max(2, 3) = 3` keeps the last three in order. -/
theorem history_cap_ok_witness :
    ((([1, 2, 3, 4, 5] : List ℚ).foldl (push_available_kw ⟨6, 48, 0, 5, 2, 3⟩) []).length : ℤ)
        ≤ historical_count ⟨6, 48, 0, 5, 2, 3⟩ ∧
    ([1, 2, 3, 4, 5] : List ℚ).foldl (push_available_kw ⟨6, 48, 0, 5, 2, 3⟩) []
      = ([1, 2, 3, 4, 5] : List ℚ).drop
          (([1, 2, 3, 4, 5] : List ℚ).length - (historical_count ⟨6, 48, 0, 5, 2, 3⟩).toNat) :=
  history_cap_ok ⟨6, 48, 0, 5, 2, 3⟩ [1, 2, 3, 4, 5] (by decide)

/-- C7 counterexample: at `kw = -0.1` (producible as a window statistic,
e.g. from a single `-0.1` sample with the smoothing window of size 1) the
code's truncating `int()` yields `0` amps, while the claimed floor formula
yields `-1`. -/
theorem amps_floor_counterexample :
    kw_to_amps 0 (-1/10) = 0 ∧ ⌊((-1/10 : ℚ) * 1000 / 240)⌋ + 0 = -1 := by
  constructor <;> with_unfolding_all decide

/-- C7 (amended): the derived amperage is `int(kw*1000/240) + OFFSET_AMPS`
with Python `int()` truncating toward zero; this equals the claimed
`floor(kw*1000/240) + OFFSET_AMPS` whenever `kw ≥ 0`, while for negative
`kw` it equals `ceil(kw*1000/240) + OFFSET_AMPS`, which exceeds the
claimed floor by one whenever `kw*1000/240` is not an integer. -/
theorem amps_derivation_amended (off : ℤ) (kw : ℚ) :
    (0 ≤ kw → kw_to_amps off kw = ⌊kw * 1000 / 240⌋ + off) ∧
    (kw < 0 → kw_to_amps off kw = ⌈kw * 1000 / 240⌉ + off) ∧
    (kw < 0 → (kw * 1000 / 240 : ℚ) ≠ (⌊kw * 1000 / 240⌋ : ℚ) →
      kw_to_amps off kw = ⌊kw * 1000 / 240⌋ + 1 + off) := by
  have hq : kw < 0 → kw * 1000 / 240 < 0 := by
    intro h
    have h1 : kw * 1000 < 0 := by nlinarith
    linarith
  have hq' : 0 ≤ kw → 0 ≤ kw * 1000 / 240 := by
    intro h
    have h1 : 0 ≤ kw * 1000 := by nlinarith
    linarith
  refine ⟨?_, ?_, ?_⟩
  · intro h
    unfold kw_to_amps pyint
    rw [if_neg (not_lt.mpr (hq' h))]
  · intro h
    unfold kw_to_amps pyint
    rw [if_pos (hq h)]
  · intro h hni
    have hfl : (⌊kw * 1000 / 240⌋ : ℚ) < kw * 1000 / 240 :=
      lt_of_le_of_ne (Int.floor_le _) (fun he => hni he.symm)
    have hceil : ⌈kw * 1000 / 240⌉ = ⌊kw * 1000 / 240⌋ + 1 := by
      rw [Int.ceil_eq_iff]
      constructor
      · push_cast
        linarith
      · push_cast
        exact (Int.lt_floor_add_one _).le
    unfold kw_to_amps pyint
    rw [if_pos (hq h), hceil]

/-- Witness for the amended C7 at `kw = 0.5` (floor case) and
`kw = -0.1` (ceiling = floor + 1 case). -/
theorem amps_derivation_amended_witness :
    kw_to_amps 0 (1/2) = ⌊(1/2 : ℚ) * 1000 / 240⌋ + 0 ∧
    kw_to_amps 3 (-1/10) = ⌊((-1/10 : ℚ) * 1000 / 240)⌋ + 1 + 3 :=
  ⟨(amps_derivation_amended 0 (1/2)).1 (by norm_num),
   (amps_derivation_amended 3 (-1/10)).2.2 (by norm_num)
     (by with_unfolding_all decide)⟩

/-- C8 counterexample: charger observed on with matching intent and the
observed rate already equal to the newly computed `set_final_amps` (6),
yet the engine issues commands, because `should_disable` holds and the
disable branch precedes the no-change branch. -/
theorem idempotence_counterexample :
    (⟨some true, some true, some 6, [1/10], none, none, none, none⟩ :
        ChargerCtlState).charging_rate
      = some (set_final_amps ⟨6, 48, 0, 1, 6, 1⟩ [1/10]) ∧
    (update_charge_amp_by_power_data ⟨6, 48, 0, 1, 6, 1⟩
        ⟨some true, some true, some 6, [1/10], none, none, none, none⟩).2 ≠ [] := by
  constructor
  · with_unfolding_all decide
  · with_unfolding_all decide

/-- C8 (amended): provided additionally that the disable debounce has not
fired (`should_disable` false), a cycle with the charger observed on,
intent matching, and observed rate equal to the newly computed
`set_final_amps` issues no command and sets intent to on; and a second
consecutive cycle from the resulting intent with the same observed inputs
and history does the same. -/
theorem idempotence_amended (cfg : Config) (st : ChargerCtlState)
    (hon : st.charger_on = some true)
    (hintent : st.script_charger_on = some true)
    (hrate : st.charging_rate = some (set_final_amps cfg st.available_kw))
    (hnd : ¬ should_disable cfg st.available_kw) :
    update_charge_amp_by_power_data cfg st
      = ({ st with script_charger_on := some true }, []) ∧
    update_charge_amp_by_power_data cfg { st with script_charger_on := some true }
      = ({ st with script_charger_on := some true }, []) := by
  refine ⟨step_on_no_change hon (Or.inr (hintent.trans hon.symm)) hrate hnd, ?_⟩
  exact @step_on_no_change cfg { st with script_charger_on := some true }
    hon (Or.inr hon.symm) hrate hnd

/-- Witness for the amended C8 at a concrete on-at-the-right-rate state. -/
theorem idempotence_amended_witness :
    update_charge_amp_by_power_data ⟨6, 48, 0, 1, 6, 1⟩
        ⟨some true, some true, some 10, [5/2], none, none, none, none⟩
      = (⟨some true, some true, some 10, [5/2], none, none, none, none⟩, []) :=
  (idempotence_amended ⟨6, 48, 0, 1, 6, 1⟩
      ⟨some true, some true, some 10, [5/2], none, none, none, none⟩
      rfl rfl (by with_unfolding_all decide) (by with_unfolding_all decide)).1

/-- C9 (Backoff degradation): the `backoff` wrapper (source defaults
`delay = 5`, `retries = 3`) invokes the wrapped function at most `retries`
times; the sleeps it performs are `delay, 2*delay, 4*delay, ...`, doubling
between attempts; if some attempt succeeds — the first success being
invocation `k` within the retry bound, after `k` raising invocations —
the wrapper stops after that `k + 1`-st call and returns the succeeding
attempt's value unchanged (last conjunct), and conversely whatever it
returns came unchanged from its final invocation (third conjunct); and if
every invocation raises, the wrapper returns `none` — Python's implicit
`return None` — instead of propagating the exception. -/
theorem backoff_ok {α : Type} (delay retries : ℕ) (attempts : ℕ → Option α) :
    (backoff delay retries attempts).calls ≤ retries ∧
    (backoff delay retries attempts).delays =
      (List.range (backoff delay retries attempts).delays.length).map
        (fun k => delay * 2 ^ k) ∧
    (∀ v, (backoff delay retries attempts).result = some v →
      0 < (backoff delay retries attempts).calls ∧
      attempts ((backoff delay retries attempts).calls - 1) = some v) ∧
    ((∀ k, attempts k = none) →
      (backoff delay retries attempts).result = none ∧
      (backoff delay retries attempts).calls = retries) ∧
    (∀ k v, k < retries → (∀ j, j < k → attempts j = none) → attempts k = some v →
      (backoff delay retries attempts).result = some v ∧
      (backoff delay retries attempts).calls = k + 1) := by
  obtain ⟨h1, h2, h3, h4, h5⟩ := backoffGo_spec attempts retries 0 delay
  refine ⟨h1, h2, ?_, ?_, ?_⟩
  · intro v hv
    obtain ⟨hpos, hat⟩ := h3 v hv
    rw [Nat.zero_add] at hat
    exact ⟨hpos, hat⟩
  · intro hall
    exact h4 (fun k => by rw [Nat.zero_add]; exact hall k)
  · intro k v hk hprev hsucc
    exact h5 k v hk (fun j hj => by rw [Nat.zero_add]; exact hprev j hj)
      (by rw [Nat.zero_add]; exact hsucc)

/-- Witness for C9: a call that raises once and succeeds on its second
invocation has its value `42` returned unchanged after exactly two
invocations, and an always-raising call degrades to `none` after exactly
3 invocations. -/
theorem backoff_ok_witness :
    (backoff 5 3 (fun k => if k = 1 then some 42 else none)).calls ≤ 3 ∧
    (backoff 5 3 (fun k => if k = 1 then (some 42 : Option ℕ) else none)).result = some 42 ∧
    (backoff 5 3 (fun k => if k = 1 then (some 42 : Option ℕ) else none)).calls = 2 ∧
    (backoff 5 3 (fun _ => (none : Option ℕ))).result = none ∧
    (backoff 5 3 (fun _ => (none : Option ℕ))).calls = 3 :=
  ⟨(backoff_ok 5 3 (fun k => if k = 1 then some 42 else none)).1,
   ((backoff_ok 5 3 (fun k => if k = 1 then some 42 else none)).2.2.2.2 1 42 (by omega)
      (fun j hj => by
        have h0 : j = 0 := by omega
        subst h0
        rfl) rfl).1,
   ((backoff_ok 5 3 (fun k => if k = 1 then some 42 else none)).2.2.2.2 1 42 (by omega)
      (fun j hj => by
        have h0 : j = 0 := by omega
        subst h0
        rfl) rfl).2,
   ((backoff_ok 5 3 (fun _ => (none : Option ℕ))).2.2.2.1 (fun k => rfl)).1,
   ((backoff_ok 5 3 (fun _ => (none : Option ℕ))).2.2.2.1 (fun k => rfl)).2⟩

/-- C10 (Absent observed state): when the charger-state fetch fails, every
observed field including the on/off flag becomes `None`; a set intent then
compares unequal to the `None` flag, so the drift pause applies and the
cycle issues no command and changes nothing; but with no prior intent the
falsy `None` flag is treated as observed-off, and given sufficient power
signals the engine issues an enable command despite the charger state
being unknown. -/
theorem absent_state_ok :
    (∀ st : ChargerCtlState,
      (update_emporia_status none st).charger_status = none ∧
      (update_emporia_status none st).charger_on = none ∧
      (update_emporia_status none st).charging_rate = none ∧
      (update_emporia_status none st).charger_icon = none ∧
      (update_emporia_status none st).charger_icon_label = none ∧
      (update_emporia_status none st).charger_icon_detail_text = none) ∧
    (∀ (cfg : Config) (st : ChargerCtlState) (b : Bool),
      st.script_charger_on = some b → st.charger_on = none →
      update_charge_amp_by_power_data cfg st = (st, [])) ∧
    (∀ (cfg : Config) (st : ChargerCtlState),
      st.script_charger_on = none → st.charger_on = none →
      should_enable cfg st.available_kw →
      cfg.MIN_AMPS ≤ true_final_amps cfg st.available_kw →
      update_charge_amp_by_power_data cfg st =
        ({ st with script_charger_on := some true },
         [Command.set_charger_on true,
          Command.set_charging_rate (set_final_amps cfg st.available_kw),
          Command.update_charger])) := by
  refine ⟨fun st => ⟨rfl, rfl, rfl, rfl, rfl, rfl⟩, ?_, ?_⟩
  · intro cfg st b hs hc
    exact step_drift (by rw [hs]; simp) (by rw [hs, hc]; simp)
  · intro cfg st hs hc hse htfa
    exact step_enable (by rw [hc]; rfl) (Or.inl hs) hse htfa

/-- Witness for C10: a drift pause with intent set against a failed fetch,
and an enable from unknown charger state with no prior intent. -/
theorem absent_state_ok_witness :
    update_charge_amp_by_power_data ⟨6, 48, 0, 1, 6, 3⟩
        ⟨some true, none, none, [5/2], none, none, none, none⟩
      = (⟨some true, none, none, [5/2], none, none, none, none⟩, []) ∧
    update_charge_amp_by_power_data ⟨6, 48, 0, 1, 1, 3⟩
        ⟨none, none, none, [5/2], none, none, none, none⟩
      = (⟨some true, none, none, [5/2], none, none, none, none⟩,
         [Command.set_charger_on true,
          Command.set_charging_rate (set_final_amps ⟨6, 48, 0, 1, 1, 3⟩ [5/2]),
          Command.update_charger]) :=
  ⟨absent_state_ok.2.1 ⟨6, 48, 0, 1, 6, 3⟩
      ⟨some true, none, none, [5/2], none, none, none, none⟩ true rfl rfl,
   absent_state_ok.2.2 ⟨6, 48, 0, 1, 1, 3⟩
      ⟨none, none, none, [5/2], none, none, none, none⟩ rfl rfl
      (by with_unfolding_all decide) (by with_unfolding_all decide)⟩

end PyEmCoS
